import Mathlib

/-!
Verification of the pulse segmentation and report layout code of the
ElectricPulseScript repository.

The embedding translates the Python source into Lean definitions:

* backend/python/process_file.py
  - analyze_peak_currents : pulse detection state machine (rows in
    input-series coordinates), per-pulse statistics, error wrapper.
  - copy_raw_data : the same state machine but storing output-document
    rows (start stored as i + 10, in-loop end stored as i + 9,
    end-of-series close stored as len + 9), per-row pulse labels and
    the formula location table.
* backend/python/data_formatter.py
  - copy_raw_data : jump-based detection with a stop after three
    pulses, formula assignment (Min / Peak / Joules), the summary
    table with cell references, and the chart series bindings.

Real numbers of the source are modelled as rationals.  Pandas
Series.max and Series.idxmax (external library calls) are modelled by
their documented semantics: maximum of the values, first index
attaining the maximum.
-/

/-- Errors raised by the Python runtime or libraries in the modelled
code paths.  The constructor emptyIntervalError is declared only
because the specification names such an error; no code in the source
ever raises it. -/
inductive PyErr where
  | keyError
  | valueError
  | emptyIntervalError
deriving DecidableEq

instance {ε α : Type} [DecidableEq ε] [DecidableEq α] :
    DecidableEq (Except ε α) := fun x y =>
  match x, y with
  | .ok a, .ok b =>
    if h : a = b then .isTrue (by rw [h])
    else .isFalse (by intro hh; cases hh; exact h rfl)
  | .ok _, .error _ => .isFalse (by intro h; cases h)
  | .error _, .ok _ => .isFalse (by intro h; cases h)
  | .error e, .error f =>
    if h : e = f then .isTrue (by rw [h])
    else .isFalse (by intro hh; cases hh; exact h rfl)

/-- Model of pandas Series.max over a list of samples (0 on an empty
list; the source never takes the maximum of an empty list on the paths
proved below). -/
def listMax : List ℚ → ℚ
  | [] => 0
  | x :: xs => xs.foldl max x

/-- Model of pandas Series.idxmax: the first position holding the
maximum of the list. -/
def series_idxmax (l : List ℚ) : ℕ :=
  l.findIdx (fun x => decide (x = listMax l))

/-- Model of the pandas row slice df.iloc[s : e+1]. -/
def pdSlice (l : List ℚ) (s e : ℕ) : List ℚ :=
  (l.take (e + 1)).drop s

/-- Model of round(q, n) of the source: round half up to n decimal
digits.  (Python rounds floats half to even; no value in the proofs
below sits on a tie, so the difference is not exercised.) -/
def roundTo (n : ℕ) (q : ℚ) : ℚ :=
  ((Int.floor (q * 10 ^ n + 1 / 2) : ℚ)) / 10 ^ n

/-! ### Pulse detection state machine of process_file.py -/

/-- State of the detection loop: the closed intervals in order of
detection, and the start row of the currently open pulse when the
machine is in a pulse (the in_pulse flag and current_pulse counter of
the source are determined by this data: in_pulse iff openStart is
some, current_pulse = number of intervals seen). -/
structure SegState where
  closed : List (ℕ × ℕ)
  openStart : Option ℕ
deriving DecidableEq

/-- Detection loop of analyze_peak_currents (process_file.py lines
150-167): iterate index i from 1, prev the value at i-1, cur at i.
Idle and prev < baseline and cur > startThreshold opens a pulse at
row i; in a pulse and cur < endThreshold closes it at row i. -/
def segAux (bt pst pet : ℚ) : ℕ → ℚ → List ℚ → SegState → SegState
  | _, _, [], st => st
  | i, prev, cur :: rest, st =>
    match st.openStart with
    | none =>
      if prev < bt ∧ pst < cur then
        segAux bt pst pet (i + 1) cur rest ⟨st.closed, some i⟩
      else
        segAux bt pst pet (i + 1) cur rest st
    | some s =>
      if cur < pet then
        segAux bt pst pet (i + 1) cur rest ⟨st.closed ++ [(s, i)], none⟩
      else
        segAux bt pst pet (i + 1) cur rest st

/-- The pulse_ranges state after the first-pass loop of
analyze_peak_currents, before the trailing-pulse closure. -/
def analyze_pulse_ranges (bt pst pet : ℚ) (vals : List ℚ) : SegState :=
  match vals with
  | [] => ⟨[], none⟩
  | v :: rest => segAux bt pst pet 1 v rest ⟨[], none⟩

/-- Pulse intervals of analyze_peak_currents in input-series rows,
including the closure of a trailing open pulse at the last row
(process_file.py lines 169-172). -/
def detect_pulses (bt pst pet : ℚ) (vals : List ℚ) : List (ℕ × ℕ) :=
  let st := analyze_pulse_ranges bt pst pet vals
  match st.openStart with
  | none => st.closed
  | some s => st.closed ++ [(s, vals.length - 1)]

/-- baseline_threshold of the source. -/
def baseline_threshold : ℚ := 10
/-- pulse_start_threshold of the source. -/
def pulse_start_threshold : ℚ := 50
/-- pulse_end_threshold of the source. -/
def pulse_end_threshold : ℚ := 20

/-! ### Per-pulse statistics of analyze_peak_currents -/

/-- peak_current of a pulse: pulse_data.max() over rows s..e
(process_file.py line 184). -/
def peakValue (current : List ℚ) (s e : ℕ) : ℚ :=
  listMax (pdSlice current s e)

/-- Row of the peak: the source evaluates
pulse_data.idxmax() - start_idx into the time slice, which is the
first row in s..e attaining the maximum (process_file.py line 185). -/
def peakIdx (current : List ℚ) (s e : ℕ) : ℕ :=
  s + series_idxmax (pdSlice current s e)

/-- Record built per pulse by analyze_peak_currents (lines 187-194). -/
structure PulseStats where
  peak_current : ℚ
  peak_time : ℚ
  start_time : ℚ
  end_time : ℚ
  duration : ℚ
deriving DecidableEq

/-- Statistics of a pulse interval (process_file.py lines 179-194).
On an empty row slice the idxmax call of the source raises ValueError;
row reads are in range for every detected interval (see
detect_pulses_chain below), so the getD defaults are never used on the
proved paths. -/
def computePulseStatsE (times current : List ℚ) (s e : ℕ) :
    Except PyErr PulseStats :=
  if pdSlice current s e = [] then .error .valueError
  else .ok
    { peak_current := roundTo 2 (peakValue current s e)
      peak_time := roundTo 3 (times.getD (peakIdx current s e) 0)
      start_time := roundTo 3 (times.getD s 0)
      end_time := roundTo 3 (times.getD e 0)
      duration := roundTo 3 (times.getD e 0 - times.getD s 0) }

/-! ### Detection of copy_raw_data in process_file.py (output rows) -/

/-- Detection loop of copy_raw_data in process_file.py (lines
265-282): same transitions as segAux, but a start is stored as
i + 10 (data begins at output row 10) and an in-loop end is stored as
i + 9 (commented in the source as the last row of the pulse). -/
def segAuxOff (bt pst pet : ℚ) : ℕ → ℚ → List ℚ → SegState → SegState
  | _, _, [], st => st
  | i, prev, cur :: rest, st =>
    match st.openStart with
    | none =>
      if prev < bt ∧ pst < cur then
        segAuxOff bt pst pet (i + 1) cur rest ⟨st.closed, some (i + 10)⟩
      else
        segAuxOff bt pst pet (i + 1) cur rest st
    | some s =>
      if cur < pet then
        segAuxOff bt pst pet (i + 1) cur rest ⟨st.closed ++ [(s, i + 9)], none⟩
      else
        segAuxOff bt pst pet (i + 1) cur rest st

/-- The pulse_ranges state of copy_raw_data after its first-pass loop,
before the trailing-pulse closure. -/
def pf_pulse_ranges (bt pst pet : ℚ) (vals : List ℚ) : SegState :=
  match vals with
  | [] => ⟨[], none⟩
  | v :: rest => segAuxOff bt pst pet 1 v rest ⟨[], none⟩

/-- Pulse intervals of copy_raw_data in output-document rows; a
trailing open pulse is closed with end = len + 9 (process_file.py
lines 284-287). -/
def pf_detect_pulses (bt pst pet : ℚ) (vals : List ℚ) : List (ℕ × ℕ) :=
  let st := pf_pulse_ranges bt pst pet vals
  match st.openStart with
  | none => st.closed
  | some s => st.closed ++ [(s, vals.length + 9)]

/-- Shift applied by copy_raw_data to an interval that the input-row
state machine closed inside the loop: start + 10 and end + 9. -/
def offsetPair (p : ℕ × ℕ) : ℕ × ℕ := (p.1 + 10, p.2 + 9)

/-- Per-row pulse labels of copy_raw_data (process_file.py lines
298-311): row i is labelled with the first pulse whose stored
output-row range contains i + 10, blank otherwise. -/
def pf_labels (ranges : List (ℕ × ℕ)) (n : ℕ) : List (Option ℕ) :=
  (List.range n).map (fun i =>
    match ranges.findIdx? (fun r => decide (r.1 ≤ i + 10) && decide (i + 10 ≤ r.2)) with
    | some k => some (k + 1)
    | none => none)

/-- Position of the first row labelled with pulse p
(pulse_labels.index of the source; the label is always present for a
detected pulse, so the absent case, in which Python raises, is never
reached on the proved paths). -/
def labelIndex (labels : List (Option ℕ)) (p : ℕ) : ℕ :=
  labels.findIdx (fun x => decide (x = some p))

/-- Formula location recorded by copy_raw_data for the Peak [A]
formula of pulse p: first occurrence row + 10 (process_file.py line
329). -/
def pf_formula_loc (labels : List (Option ℕ)) (p : ℕ) : ℕ :=
  labelIndex labels p + 10

/-- Formula location table of copy_raw_data: one Peak [A] location per
detected pulse, in pulse order (process_file.py lines 317-329). -/
def pf_formula_locations (labels : List (Option ℕ)) (numPulses : ℕ) : List ℕ :=
  (List.range numPulses).map (fun k => pf_formula_loc labels (k + 1))

/-! ### Input frames and the two public entry points -/

/-- Channel data of an input file after the external reader has
materialized it: the Relative Time column, and the optional Volt and
Amp columns.  (The Date and Time Stamp columns of the source carry no
data used by the analysed logic and are omitted; all present columns
of a pandas frame share one length.) -/
structure Frame where
  times : List ℚ
  volt : Option (List ℚ)
  amp : Option (List ℚ)

/-- Body of analyze_peak_currents after the file is read (lines
126-215): reading the Amp column raises KeyError when it is absent;
otherwise pulses are detected with the hard-coded thresholds and the
per-pulse statistics are computed.  The duration and sampling_rate of
file_info are kept (division by a zero duration, which numpy turns
into infinity, is not modelled and is irrelevant to the claims). -/
structure AnalyzeOk where
  peak_currents : List PulseStats
  total_pulses : ℕ
  raw_time : List ℚ
  raw_current : List ℚ
  raw_voltage : List ℚ
  duration : ℚ
  sampling_rate : ℚ

def analyzeBody (f : Frame) : Except PyErr AnalyzeOk :=
  match f.amp with
  | none => .error .keyError
  | some current => do
    let ranges := detect_pulses baseline_threshold pulse_start_threshold
      pulse_end_threshold current
    let peaks ← ranges.mapM (fun r => computePulseStatsE f.times current r.1 r.2)
    .ok { peak_currents := peaks
          total_pulses := ranges.length
          raw_time := f.times
          raw_current := current
          raw_voltage := f.volt.getD []
          duration := roundTo 3 (listMax f.times)
          sampling_rate := roundTo 1 ((f.times.length : ℚ) / listMax f.times) }

/-- Value returned by analyze_peak_currents: the success dictionary or
the dictionary with success False and an error message. -/
inductive AnalyzeResult where
  | success (d : AnalyzeOk)
  | failure (error : String)

/-- Message str(e) attached to a caught error. -/
def errMsg : PyErr → String
  | .keyError => "KeyError"
  | .valueError => "ValueError"
  | .emptyIntervalError => "EmptyIntervalError"

/-- Reading the input file (external) composed with the body; a read
failure or any body failure is an error of this computation. -/
def analyzeRun (input : Except PyErr Frame) : Except PyErr AnalyzeOk :=
  input.bind analyzeBody

/-- Entry point analyze_peak_currents with its try/except wrapper
(process_file.py lines 113-224): the outer Except layer represents an
exception escaping to the caller, which the wrapper never allows. -/
def analyze_peak_currents (input : Except PyErr Frame) :
    Except PyErr AnalyzeResult :=
  .ok (match analyzeRun input with
    | .ok d => .success d
    | .error e => .failure (errMsg e))

/-- Data computed by copy_raw_data of process_file.py that later
stages consume: the detected ranges in output rows, the per-row
labels, and the formula location table.  The spreadsheet writing is
the external Document Writer.  Reading the Volt column in the
per-row output loop raises KeyError when the column is absent and at
least one row exists (line 392). -/
structure PfOut where
  ranges : List (ℕ × ℕ)
  labels : List (Option ℕ)
  locs : List ℕ

def pfBody (f : Frame) : Except PyErr PfOut :=
  match f.amp with
  | none => .error .keyError
  | some current =>
    let ranges := pf_detect_pulses baseline_threshold pulse_start_threshold
      pulse_end_threshold current
    let labels := pf_labels ranges current.length
    if f.volt = none ∧ 0 < current.length then .error .keyError
    else .ok { ranges := ranges, labels := labels
               locs := pf_formula_locations labels ranges.length }

/-- Reading the input file (external) composed with the body of
copy_raw_data. -/
def pfRun (input : Except PyErr Frame) : Except PyErr PfOut :=
  input.bind pfBody

/-- Entry point copy_raw_data of process_file.py with its try/except
wrapper (lines 229-433): any internal failure yields None. -/
def pf_copy_raw_data (input : Except PyErr Frame) :
    Except PyErr (Option PfOut) :=
  .ok (match pfRun input with
    | .ok o => some o
    | .error _ => none)

/-! ### Detection and layout of copy_raw_data in data_formatter.py -/

/-- Value cells of the output frame: blank, the literal text appended
at a pulse start row, or one of the three aggregate formulas over a
stored output-row range (MIN over column D, MAX over column E, the
AVERAGE*AVERAGE*COUNT/100 Joules formula). -/
inductive VCell where
  | blank
  | minVText
  | minF (a b : ℕ)
  | maxF (a b : ℕ)
  | joulesF (a b : ℕ)
deriving DecidableEq

/-- State of the data_formatter detection loop: pulse counter,
in_pulse flag, the label and value columns built so far, and the
pulse ranges (start output row, optional end output row - the end key
is absent while the pulse is open, matching the Python dict). -/
structure DFState where
  cp : ℕ
  in_pulse : Bool
  labels : List (Option ℕ)
  vf : List VCell
  ranges : List (ℕ × Option ℕ)
deriving DecidableEq

/-- Assignment pulse_ranges[current_pulse][end] = e of the source:
set the end of the most recently opened range. -/
def setEnd : List (ℕ × Option ℕ) → ℕ → List (ℕ × Option ℕ)
  | [], _ => []
  | [r], e => [(r.1, some e)]
  | r :: s :: t, e => r :: setEnd (s :: t) e

/-- Detection loop of data_formatter.py (lines 33-82): a pulse starts
on a jump of more than 5 from the previous sample, ends when the
value drops below 10; a start is stored as i + 10 and an end as
i + 9; after the third pulse closes, the remaining rows are filled
with blanks and the loop stops. -/
def dfAux (i : ℕ) (prev : ℚ) (l : List ℚ) (st : DFState) : DFState :=
  match l with
  | [] => st
  | cur :: rest =>
    let st2 :=
      if st.in_pulse = false ∧ 5 < cur - prev then
        { cp := st.cp + 1, in_pulse := true
          labels := st.labels ++ [some (st.cp + 1)]
          vf := st.vf ++ [VCell.minVText]
          ranges := st.ranges ++ [(i + 10, none)] }
      else if st.in_pulse = true ∧ cur < 10 then
        { st with in_pulse := false, labels := st.labels ++ [none]
                  vf := st.vf ++ [VCell.blank]
                  ranges := setEnd st.ranges (i + 9) }
      else if st.in_pulse = true then
        { st with labels := st.labels ++ [some st.cp]
                  vf := st.vf ++ [VCell.blank] }
      else
        { st with labels := st.labels ++ [none], vf := st.vf ++ [VCell.blank] }
    if 3 ≤ st2.cp ∧ st2.in_pulse = false then
      { st2 with labels := st2.labels ++ List.replicate rest.length none
                 vf := st2.vf ++ List.replicate rest.length VCell.blank }
    else
      dfAux (i + 1) cur rest st2

/-- Detection pass of data_formatter.py: row 0 always gets blank
label and value cells, then the loop runs from row 1. -/
def df_run (vals : List ℚ) : DFState :=
  match vals with
  | [] => ⟨0, false, [], [], []⟩
  | v :: rest => dfAux 1 v rest ⟨0, false, [none], [VCell.blank], []⟩

/-- Pulse label column produced by data_formatter.py. -/
def df_labels (vals : List ℚ) : List (Option ℕ) := (df_run vals).labels

/-- Modelled from the spec: the same detection loop without the
stop-after-three-pulses early exit, which the specification describes
as pulses that still "occur" in the input beyond the cap.  Used only
to express that an input contains more than three pulses. -/
def dfAuxU (i : ℕ) (prev : ℚ) (l : List ℚ) (st : DFState) : DFState :=
  match l with
  | [] => st
  | cur :: rest =>
    let st2 :=
      if st.in_pulse = false ∧ 5 < cur - prev then
        { cp := st.cp + 1, in_pulse := true
          labels := st.labels ++ [some (st.cp + 1)]
          vf := st.vf ++ [VCell.minVText]
          ranges := st.ranges ++ [(i + 10, none)] }
      else if st.in_pulse = true ∧ cur < 10 then
        { st with in_pulse := false, labels := st.labels ++ [none]
                  vf := st.vf ++ [VCell.blank]
                  ranges := setEnd st.ranges (i + 9) }
      else if st.in_pulse = true then
        { st with labels := st.labels ++ [some st.cp]
                  vf := st.vf ++ [VCell.blank] }
      else
        { st with labels := st.labels ++ [none], vf := st.vf ++ [VCell.blank] }
    dfAuxU (i + 1) cur rest st2

/-- Modelled from the spec: labels of the uncapped detection. -/
def df_labels_uncapped (vals : List ℚ) : List (Option ℕ) :=
  match vals with
  | [] => []
  | v :: rest => (dfAuxU 1 v rest ⟨0, false, [none], [VCell.blank], []⟩).labels

/-- Formula locations recorded for one pulse (data_formatter.py lines
90-115): the min_v key is always written; peak_a and joules stay
absent when no row in the range of the pulse could take them. -/
structure FLoc where
  min_v : ℕ
  peak_a : Option ℕ
  joules : Option ℕ
deriving DecidableEq

/-- Search loop of data_formatter.py lines 101-106 and 109-115: the
first position j after first with pulse label p and a blank value
cell. -/
def findSpot (labels : List (Option ℕ)) (vf : List VCell) (p first : ℕ) :
    Option ℕ :=
  match ((labels.zip vf).drop (first + 1)).findIdx?
      (fun q => decide (q.1 = some p) && decide (q.2 = VCell.blank)) with
  | some k => some (first + 1 + k)
  | none => none

/-- Formula assignment for one pulse (data_formatter.py lines 92-115):
the Min formula overwrites the first occurrence row, the Peak and
Joules formulas take the next blank rows of the pulse when such rows
exist; each recorded location is the row position + 10. -/
def assignPulse (labels : List (Option ℕ)) (vf : List VCell) (p s e : ℕ) :
    List VCell × FLoc :=
  let first := labelIndex labels p
  let vf1 := vf.set first (VCell.minF s e)
  match findSpot labels vf1 p first with
  | some j =>
    let vf2 := vf1.set j (VCell.maxF s e)
    match findSpot labels vf2 p first with
    | some j2 =>
      (vf2.set j2 (VCell.joulesF s e),
       ⟨first + 10, some (j + 10), some (j2 + 10)⟩)
    | none => (vf2, ⟨first + 10, some (j + 10), none⟩)
  | none => (vf1, ⟨first + 10, none, none⟩)

/-- Assignment loop over all pulses in order (data_formatter.py lines
87-115).  Reading the end key of a pulse whose range was never closed
raises KeyError (line 89). -/
def assignAux (labels : List (Option ℕ)) :
    List (ℕ × Option ℕ) → ℕ → List VCell →
    Except PyErr (List VCell × List FLoc)
  | [], _, vf => .ok (vf, [])
  | (s, eo) :: rest, p, vf =>
    match eo with
    | none => .error .keyError
    | some e =>
      let r := assignPulse labels vf p s e
      match assignAux labels rest (p + 1) r.1 with
      | .ok (vfF, locs) => .ok (vfF, r.2 :: locs)
      | .error err => .error err

/-- Cells of the summary table: blank, or a reference =G(row). -/
inductive GCell where
  | blank
  | ref (row : ℕ)
deriving DecidableEq

/-- Min [V] summary cell of pulse p (data_formatter.py lines 137,
142, 147): a reference to the recorded min_v row when pulse p is in
the location table, blank otherwise. -/
def summaryMin (locs : List FLoc) (p : ℕ) : GCell :=
  match locs.get? (p - 1) with
  | some f => .ref f.min_v
  | none => .blank

/-- Peak [A] or Joules [J] summary cell of pulse p: when pulse p is
in the location table the source indexes its per-pulse dict with the
statistic key unconditionally, so an absent key raises KeyError; when
the pulse itself is absent the cell is blank (the membership test of
the source checks only the pulse, lines 138-139 etc.). -/
def summaryOpt (locs : List FLoc) (p : ℕ) (sel : FLoc → Option ℕ) :
    Except PyErr GCell :=
  match locs.get? (p - 1) with
  | none => .ok .blank
  | some f =>
    match sel f with
    | some r => .ok (.ref r)
    | none => .error .keyError

/-- Summary table rows for pulses 1, 2, 3 (data_formatter.py lines
133-154): pulse number, Min cell, Peak cell, Joules cell. -/
def df_build_summary (locs : List FLoc) :
    Except PyErr (List (ℕ × GCell × GCell × GCell)) := do
  let k1 ← summaryOpt locs 1 FLoc.peak_a
  let j1 ← summaryOpt locs 1 FLoc.joules
  let k2 ← summaryOpt locs 2 FLoc.peak_a
  let j2 ← summaryOpt locs 2 FLoc.joules
  let k3 ← summaryOpt locs 3 FLoc.peak_a
  let j3 ← summaryOpt locs 3 FLoc.joules
  .ok [(1, summaryMin locs 1, k1, j1),
       (2, summaryMin locs 2, k2, j2),
       (3, summaryMin locs 3, k3, j3)]

/-- Everything copy_raw_data of data_formatter.py computes before the
external writer is invoked. -/
structure DFOut where
  labels : List (Option ℕ)
  ranges : List (ℕ × Option ℕ)
  vf : List VCell
  locs : List FLoc
  summary : List (ℕ × GCell × GCell × GCell)
deriving DecidableEq

/-- Detection, formula assignment, and summary construction of
data_formatter.py in source order; any step failing makes the whole
computation fail. -/
def df_pipeline (vals : List ℚ) : Except PyErr DFOut := do
  let st := df_run vals
  let (vfF, locs) ← assignAux st.labels st.ranges 1 st.vf
  let summary ← df_build_summary locs
  .ok ⟨st.labels, st.ranges, vfF, locs, summary⟩

/-- Entry point copy_raw_data of data_formatter.py with its
try/except wrapper: any internal failure yields None (lines
220-222). -/
def df_copy_raw_data (vals : List ℚ) : Option DFOut :=
  match df_pipeline vals with
  | .ok o => some o
  | .error _ => none

/-- One chart series binding of data_formatter.py (lines 188-202):
sheet rows of the category and value ranges and the bound columns. -/
structure ChartSeries where
  name : String
  catFirst : ℕ
  catLast : ℕ
  catCol : ℕ
  valFirst : ℕ
  valLast : ℕ
  valCol : ℕ
  y2 : Bool
deriving DecidableEq

/-- The two chart series of data_formatter.py for a raw-data block of
n rows: both the voltage and the current series bind categories to
rows 9 .. 9+n-1 of column 0 and values to the same rows of columns 3
and 4. -/
def df_chart_series (n : ℕ) : List ChartSeries :=
  [ { name := "Clamp [V]", catFirst := 9, catLast := 9 + n - 1, catCol := 0
      valFirst := 9, valLast := 9 + n - 1, valCol := 3, y2 := false },
    { name := "Current [A]", catFirst := 9, catLast := 9 + n - 1, catCol := 0
      valFirst := 9, valLast := 9 + n - 1, valCol := 4, y2 := true } ]

/-! ### Ordering invariant of the detected intervals -/

/-- Chain predicate: the intervals have starts at least lo, each start
at most its end, each end strictly before the next start, and the
final end strictly before hi. -/
def ChainLt (lo : ℕ) : List (ℕ × ℕ) → ℕ → Prop
  | [], hi => lo ≤ hi
  | p :: t, hi => lo ≤ p.1 ∧ p.1 ≤ p.2 ∧ ChainLt (p.2 + 1) t hi

theorem chainLt_mono {l : List (ℕ × ℕ)} :
    ∀ {lo hi hi2 : ℕ}, ChainLt lo l hi → hi ≤ hi2 → ChainLt lo l hi2 := by
  induction l with
  | nil => intro lo hi hi2 h hle; exact le_trans h hle
  | cons p t ih =>
    intro lo hi hi2 h hle
    exact ⟨h.1, h.2.1, ih h.2.2 hle⟩

theorem chainLt_append {l : List (ℕ × ℕ)} :
    ∀ {lo hi s e : ℕ}, ChainLt lo l hi → hi ≤ s → s ≤ e →
      ChainLt lo (l ++ [(s, e)]) (e + 1) := by
  induction l with
  | nil =>
    intro lo hi s e h hs hse
    exact ⟨le_trans h hs, hse, Nat.le_refl _⟩
  | cons p t ih =>
    intro lo hi s e h hs hse
    exact ⟨h.1, h.2.1, ih h.2.2 hs hse⟩

theorem chainLt_le {l : List (ℕ × ℕ)} :
    ∀ {lo hi : ℕ}, ChainLt lo l hi → lo ≤ hi := by
  induction l with
  | nil => intro lo hi h; exact h
  | cons p t ih =>
    intro lo hi h
    have h1 := h.1
    have h2 := h.2.1
    have h3 := ih h.2.2
    omega

theorem chainLt_mem {l : List (ℕ × ℕ)} :
    ∀ {lo hi : ℕ}, ChainLt lo l hi →
      ∀ p ∈ l, lo ≤ p.1 ∧ p.1 ≤ p.2 ∧ p.2 < hi := by
  induction l with
  | nil => intro lo hi _ p hp; cases hp
  | cons q t ih =>
    intro lo hi h p hp
    rcases List.mem_cons.mp hp with rfl | hp2
    · have := chainLt_le h.2.2
      exact ⟨h.1, h.2.1, by omega⟩
    · have := ih h.2.2 p hp2
      have h1 := h.1
      have h2 := h.2.1
      exact ⟨by omega, this.2.1, this.2.2⟩

theorem chainLt_pairwise {l : List (ℕ × ℕ)} :
    ∀ {lo hi : ℕ}, ChainLt lo l hi →
      List.Pairwise (fun a b : ℕ × ℕ => a.2 < b.1) l := by
  induction l with
  | nil => intro lo hi _; exact List.Pairwise.nil
  | cons q t ih =>
    intro lo hi h
    refine List.Pairwise.cons ?_ (ih h.2.2)
    intro b hb
    have := chainLt_mem h.2.2 b hb
    omega

/-- Loop invariant of the detection state machine: with all rows
before index i processed, the closed intervals form a chain below the
open start (when one exists, itself before i) or below i. -/
def SegInv (i : ℕ) (st : SegState) : Prop :=
  match st.openStart with
  | none => ChainLt 0 st.closed i
  | some s => ChainLt 0 st.closed s ∧ s < i

theorem segAux_inv (bt pst pet : ℚ) (l : List ℚ) :
    ∀ (i : ℕ) (prev : ℚ) (st : SegState),
      SegInv i st → SegInv (i + l.length) (segAux bt pst pet i prev l st) := by
  induction l with
  | nil => intro i prev st h; simpa using h
  | cons cur rest ih =>
    intro i prev st h
    obtain ⟨cl, op⟩ := st
    have harith : i + (cur :: rest).length = (i + 1) + rest.length := by
      simp; omega
    rw [harith]
    cases op with
    | none =>
      simp only [segAux]
      by_cases hc : prev < bt ∧ pst < cur
      · rw [if_pos hc]
        exact ih (i + 1) cur ⟨cl, some i⟩ ⟨h, Nat.lt_succ_self i⟩
      · rw [if_neg hc]
        exact ih (i + 1) cur ⟨cl, none⟩ (chainLt_mono h (Nat.le_succ i))
    | some s =>
      simp only [segAux]
      obtain ⟨hcl, hsi⟩ := h
      by_cases hc : cur < pet
      · rw [if_pos hc]
        refine ih (i + 1) cur ⟨cl ++ [(s, i)], none⟩ ?_
        exact chainLt_append hcl (Nat.le_refl s) (Nat.le_of_lt hsi)
      · rw [if_neg hc]
        exact ih (i + 1) cur ⟨cl, some s⟩ ⟨hcl, Nat.lt_succ_of_lt hsi⟩

/-- The intervals returned by detect_pulses form a chain bounded by
the series length. -/
theorem detect_pulses_chain (bt pst pet : ℚ) (vals : List ℚ) :
    ChainLt 0 (detect_pulses bt pst pet vals) vals.length := by
  cases vals with
  | nil =>
    simp [detect_pulses, analyze_pulse_ranges, ChainLt]
  | cons v rest =>
    have h0 : SegInv 1 (⟨[], none⟩ : SegState) := by
      simp [SegInv, ChainLt]
    have h := segAux_inv bt pst pet rest 1 v ⟨[], none⟩ h0
    unfold detect_pulses
    show ChainLt 0
      (match (analyze_pulse_ranges bt pst pet (v :: rest)).openStart with
        | none => (analyze_pulse_ranges bt pst pet (v :: rest)).closed
        | some s => (analyze_pulse_ranges bt pst pet (v :: rest)).closed ++
            [(s, (v :: rest).length - 1)]) _
    have hpr : analyze_pulse_ranges bt pst pet (v :: rest) =
        segAux bt pst pet 1 v rest ⟨[], none⟩ := rfl
    rw [hpr]
    cases hop : (segAux bt pst pet 1 v rest (⟨[], none⟩ : SegState)).openStart with
    | none =>
      simp only [SegInv, hop] at h
      simp only [List.length_cons]
      exact chainLt_mono h (by omega)
    | some s =>
      simp only [SegInv, hop] at h
      simp only [List.length_cons, Nat.add_sub_cancel]
      exact chainLt_append h.1 (Nat.le_refl s) (by omega)

/-- Every detected interval has its rows inside the series. -/
theorem detect_pulses_mem_bounds (bt pst pet : ℚ) (vals : List ℚ) :
    ∀ p ∈ detect_pulses bt pst pet vals, p.1 ≤ p.2 ∧ p.2 < vals.length :=
  fun p hp =>
    ⟨(chainLt_mem (detect_pulses_chain bt pst pet vals) p hp).2.1,
     (chainLt_mem (detect_pulses_chain bt pst pet vals) p hp).2.2⟩

/-! ### Relation between the two detection passes of process_file.py -/

/-- Image of an input-row machine state under the shifts used by
copy_raw_data: closed intervals get (start + 10, end + 9), an open
start gets + 10. -/
def offsetState (st : SegState) : SegState :=
  ⟨st.closed.map offsetPair, st.openStart.map (· + 10)⟩

theorem segAuxOff_rel (bt pst pet : ℚ) (l : List ℚ) :
    ∀ (i : ℕ) (prev : ℚ) (st : SegState),
      segAuxOff bt pst pet i prev l (offsetState st) =
        offsetState (segAux bt pst pet i prev l st) := by
  induction l with
  | nil => intro i prev st; rfl
  | cons cur rest ih =>
    intro i prev st
    obtain ⟨cl, op⟩ := st
    cases op with
    | none =>
      show segAuxOff bt pst pet i prev (cur :: rest)
          ⟨cl.map offsetPair, none⟩ = _
      simp only [segAux, segAuxOff]
      by_cases hc : prev < bt ∧ pst < cur
      · rw [if_pos hc, if_pos hc]
        exact ih (i + 1) cur ⟨cl, some i⟩
      · rw [if_neg hc, if_neg hc]
        exact ih (i + 1) cur ⟨cl, none⟩
    | some s =>
      show segAuxOff bt pst pet i prev (cur :: rest)
          ⟨cl.map offsetPair, some (s + 10)⟩ = _
      simp only [segAux, segAuxOff]
      by_cases hc : cur < pet
      · rw [if_pos hc, if_pos hc]
        have hmap : cl.map offsetPair ++ [(s + 10, i + 9)] =
            (cl ++ [(s, i)]).map offsetPair := by
          simp [offsetPair]
        rw [hmap]
        exact ih (i + 1) cur ⟨cl ++ [(s, i)], none⟩
      · rw [if_neg hc, if_neg hc]
        exact ih (i + 1) cur ⟨cl, some s⟩

/-- The first-pass state of copy_raw_data is the shifted image of the
first-pass state of analyze_peak_currents. -/
theorem pf_pulse_ranges_rel (bt pst pet : ℚ) (vals : List ℚ) :
    pf_pulse_ranges bt pst pet vals =
      offsetState (analyze_pulse_ranges bt pst pet vals) := by
  cases vals with
  | nil => rfl
  | cons v rest =>
    show segAuxOff bt pst pet 1 v rest (offsetState ⟨[], none⟩) = _
    exact segAuxOff_rel bt pst pet rest 1 v ⟨[], none⟩

/-! ### Maximum and first argmax -/

theorem foldl_max_init (t : List ℚ) : ∀ a : ℚ, a ≤ t.foldl max a := by
  induction t with
  | nil => intro a; exact le_refl a
  | cons b t ih => intro a; exact le_trans (le_max_left a b) (ih (max a b))

theorem foldl_max_le_of_mem (t : List ℚ) :
    ∀ (a x : ℚ), x ∈ t → x ≤ t.foldl max a := by
  induction t with
  | nil => intro a x hx; cases hx
  | cons b t ih =>
    intro a x hx
    rcases List.mem_cons.mp hx with rfl | hx2
    · exact le_trans (le_max_right a x) (foldl_max_init t (max a x))
    · exact ih (max a b) x hx2

theorem foldl_max_mem (t : List ℚ) :
    ∀ a : ℚ, t.foldl max a = a ∨ t.foldl max a ∈ t := by
  induction t with
  | nil => intro a; exact Or.inl rfl
  | cons b t ih =>
    intro a
    rcases ih (max a b) with h | h
    · rcases max_choice a b with hm | hm
      · exact Or.inl (by rw [List.foldl_cons, h, hm])
      · exact Or.inr (by rw [List.foldl_cons, h, hm]; exact List.mem_cons_self b t)
    · exact Or.inr (List.mem_cons_of_mem b h)

theorem le_listMax {l : List ℚ} {x : ℚ} (hx : x ∈ l) : x ≤ listMax l := by
  cases l with
  | nil => cases hx
  | cons y t =>
    rcases List.mem_cons.mp hx with rfl | h
    · exact foldl_max_init t x
    · exact foldl_max_le_of_mem t y x h

theorem listMax_mem {l : List ℚ} (h : l ≠ []) : listMax l ∈ l := by
  cases l with
  | nil => exact absurd rfl h
  | cons y t =>
    rcases foldl_max_mem t y with h2 | h2
    · rw [show listMax (y :: t) = t.foldl max y from rfl, h2]
      exact List.mem_cons_self y t
    · exact List.mem_cons_of_mem y h2

theorem series_idxmax_lt {l : List ℚ} (h : l ≠ []) :
    series_idxmax l < l.length :=
  List.findIdx_lt_length_of_exists ⟨listMax l, listMax_mem h, by simp⟩

theorem series_idxmax_get {l : List ℚ} (h : l ≠ []) :
    l.get ⟨series_idxmax l, series_idxmax_lt h⟩ = listMax l := by
  have h2 := @List.findIdx_getElem _ (fun x => decide (x = listMax l)) l
    (series_idxmax_lt h)
  simpa using h2

theorem series_idxmax_first {l : List ℚ} {j : ℕ}
    (hj : j < series_idxmax l) (hlen : j < l.length) :
    l.get ⟨j, hlen⟩ ≠ listMax l := by
  have h2 := @List.not_of_lt_findIdx _ (fun x => decide (x = listMax l)) l j hj
  simpa using h2

theorem pdSlice_length_eq {l : List ℚ} {s e : ℕ} (h1 : s ≤ e)
    (h2 : e < l.length) : (pdSlice l s e).length = e + 1 - s := by
  simp only [pdSlice, List.length_drop, List.length_take]
  omega

theorem pdSlice_getD {l : List ℚ} {s e k : ℕ}
    (hk : k < (pdSlice l s e).length) :
    (pdSlice l s e).getD k 0 = l.getD (s + k) 0 := by
  have hlen : (pdSlice l s e).length = min (e + 1) l.length - s := by
    simp [pdSlice]
  have hl : s + k < l.length := by omega
  rw [List.getD_eq_getElem _ _ hk, List.getD_eq_getElem _ _ hl]
  simp only [pdSlice, List.getElem_drop, List.getElem_take]

theorem pdSlice_ne_nil {l : List ℚ} {s e : ℕ} (h1 : s ≤ e)
    (h2 : e < l.length) : pdSlice l s e ≠ [] := by
  have := pdSlice_length_eq h1 h2
  intro hnil
  rw [hnil] at this
  simp at this
  omega

/-- Core peak facts for a row range inside the series: the chosen row
is in the range, holds the maximum, every row of the range is at most
the maximum, and every earlier row of the range is strictly below it. -/
theorem peak_core {current : List ℚ} {s e : ℕ} (h1 : s ≤ e)
    (h2 : e < current.length) :
    s ≤ peakIdx current s e ∧ peakIdx current s e ≤ e ∧
    current.getD (peakIdx current s e) 0 = peakValue current s e ∧
    (∀ j, s ≤ j → j ≤ e → current.getD j 0 ≤ peakValue current s e) ∧
    (∀ j, s ≤ j → j < peakIdx current s e →
      current.getD j 0 < peakValue current s e) := by
  have hlen := pdSlice_length_eq h1 h2
  have hne := pdSlice_ne_nil h1 h2
  have hidx := series_idxmax_lt hne
  have hgetPd : ∀ k, (hk : k < (pdSlice current s e).length) →
      current.getD (s + k) 0 = (pdSlice current s e).get ⟨k, hk⟩ := by
    intro k hk
    rw [← pdSlice_getD hk, List.getD_eq_getElem _ _ hk]
    rfl
  have hvalue : current.getD (peakIdx current s e) 0 = peakValue current s e := by
    rw [show peakIdx current s e = s + series_idxmax (pdSlice current s e)
      from rfl]
    rw [hgetPd _ hidx]
    rw [series_idxmax_get hne]
    rfl
  refine ⟨Nat.le_add_right s _, by rw [show peakIdx current s e =
    s + series_idxmax (pdSlice current s e) from rfl]; omega, hvalue, ?_, ?_⟩
  · intro j hj1 hj2
    have hk : j - s < (pdSlice current s e).length := by omega
    have hj : current.getD j 0 = (pdSlice current s e).get ⟨j - s, hk⟩ := by
      have := hgetPd (j - s) hk
      rw [show s + (j - s) = j by omega] at this
      exact this
    rw [hj]
    exact le_listMax (List.get_mem _ _ _)
  · intro j hj1 hj2
    have hklt : j - s < series_idxmax (pdSlice current s e) := by
      rw [show peakIdx current s e = s + series_idxmax (pdSlice current s e)
        from rfl] at hj2
      omega
    have hk : j - s < (pdSlice current s e).length := lt_trans hklt hidx
    have hj : current.getD j 0 = (pdSlice current s e).get ⟨j - s, hk⟩ := by
      have := hgetPd (j - s) hk
      rw [show s + (j - s) = j by omega] at this
      exact this
    rw [hj]
    exact lt_of_le_of_ne (le_listMax (List.getElem_mem _))
      (series_idxmax_first hklt hk)

/-! ### Label bound of the capped data_formatter detection -/

theorem dfAux_labels_le (l : List ℚ) :
    ∀ (i : ℕ) (prev : ℚ) (st : DFState),
      st.cp ≤ 3 → (st.in_pulse = true ∨ st.cp < 3) →
      (∀ p, some p ∈ st.labels → p ≤ 3) →
      ∀ p, some p ∈ (dfAux i prev l st).labels → p ≤ 3 := by
  induction l with
  | nil => intro i prev st _ _ h3 p hp; exact h3 p hp
  | cons cur rest ih =>
    intro i prev st h1 h2 h3 p hp
    simp only [dfAux] at hp
    by_cases hc1 : st.in_pulse = false ∧ 5 < cur - prev
    · rw [if_pos hc1] at hp
      have hcp : st.cp < 3 := by
        rcases h2 with h2a | h2a
        · rw [h2a] at hc1; exact absurd hc1.1 (by simp)
        · exact h2a
      have hlab : ∀ q, some q ∈ st.labels ++ [some (st.cp + 1)] → q ≤ 3 := by
        intro q hq
        rcases List.mem_append.mp hq with hq2 | hq2
        · exact h3 q hq2
        · simp at hq2
          omega
      simp only [show (3 ≤ st.cp + 1 ∧ true = false) = False by simp,
        if_false] at hp
      refine ih (i + 1) cur _ ?_ ?_ ?_ p hp
      · simp
        omega
      · simp
      · exact hlab
    · rw [if_neg hc1] at hp
      by_cases hc2 : st.in_pulse = true ∧ cur < 10
      · rw [if_pos hc2] at hp
        have hlab : ∀ q, some q ∈ st.labels ++ [none] → q ≤ 3 := by
          intro q hq
          rcases List.mem_append.mp hq with hq2 | hq2
          · exact h3 q hq2
          · simp at hq2
        by_cases hbr : 3 ≤ st.cp
        · rw [if_pos (by simp [hbr])] at hp
          simp only [List.append_assoc, List.mem_append] at hp
          rcases hp with hp2 | hp2 | hp2
          · exact h3 p hp2
          · simp at hp2
          · have := List.eq_of_mem_replicate hp2
            cases this
        · rw [if_neg (by simp [hbr])] at hp
          refine ih (i + 1) cur _ ?_ ?_ ?_ p hp
          · simpa using h1
          · simp
            omega
          · exact hlab
      · rw [if_neg hc2] at hp
        by_cases hc3 : st.in_pulse = true
        · rw [if_pos hc3] at hp
          have hlab : ∀ q, some q ∈ st.labels ++ [some st.cp] → q ≤ 3 := by
            intro q hq
            rcases List.mem_append.mp hq with hq2 | hq2
            · exact h3 q hq2
            · simp at hq2
              omega
          simp only [show (3 ≤ st.cp ∧ st.in_pulse = false) = False by
            simp [hc3], if_false] at hp
          refine ih (i + 1) cur _ ?_ ?_ ?_ p hp
          · simpa using h1
          · exact Or.inl hc3
          · exact hlab
        · rw [if_neg hc3] at hp
          have hcp : st.cp < 3 := by
            rcases h2 with h2a | h2a
            · exact absurd h2a hc3
            · exact h2a
          have hlab : ∀ q, some q ∈ st.labels ++ [none] → q ≤ 3 := by
            intro q hq
            rcases List.mem_append.mp hq with hq2 | hq2
            · exact h3 q hq2
            · simp at hq2
          rw [if_neg (by simp; intro hh; omega)] at hp
          refine ih (i + 1) cur _ ?_ ?_ ?_ p hp
          · simpa using h1
          · simp
            omega
          · exact hlab

/-- Every pulse label emitted by the capped data_formatter detection
is at most 3. -/
theorem df_labels_le (vals : List ℚ) :
    ∀ p, some p ∈ df_labels vals → p ≤ 3 := by
  cases vals with
  | nil => intro p hp; cases hp
  | cons v rest =>
    intro p hp
    refine dfAux_labels_le rest 1 v ⟨0, false, [none], [VCell.blank], []⟩
      (by simp) (by simp) ?_ p hp
    intro q hq
    simp at hq

theorem except_bind_ok {ε α β : Type} {x : Except ε α} {f : α → Except ε β}
    {b : β} (h : (x >>= f) = .ok b) : ∃ a, x = .ok a ∧ f a = .ok b := by
  cases x with
  | error e => exact absurd h (by simp [Bind.bind, Except.bind])
  | ok a => exact ⟨a, rfl, h⟩

/-- Every successful summary construction yields exactly the three
hard-coded pulse rows. -/
theorem df_build_summary_length (locs : List FLoc) :
    ∀ s, df_build_summary locs = .ok s → s.length = 3 := by
  intro s h
  unfold df_build_summary at h
  obtain ⟨k1, hk1, h⟩ := except_bind_ok h
  obtain ⟨j1, hj1, h⟩ := except_bind_ok h
  obtain ⟨k2, hk2, h⟩ := except_bind_ok h
  obtain ⟨j2, hj2, h⟩ := except_bind_ok h
  obtain ⟨k3, hk3, h⟩ := except_bind_ok h
  obtain ⟨j3, hj3, h⟩ := except_bind_ok h
  cases h
  rfl

/-! ### Claims -/

/-- C1 (counterexample): on the series 5, 5, 60, 55, 15, 5 with
thresholds 10 / 50 / 20 the code detects the single interval with
rows 2 and 4 (the end row is the row whose value dropped below the
end threshold), not rows 2 and 3, and the duration is 0.2, not 0.1;
the claimed interval and duration are refuted. -/
theorem c1_scenario_counterexample :
    detect_pulses 10 50 20 [5, 5, 60, 55, 15, 5] = [(2, 4)] ∧
    ((2, 4) : ℕ × ℕ) ≠ (2, 3) ∧
    computePulseStatsE [0, 1/10, 2/10, 3/10, 4/10, 5/10]
      [5, 5, 60, 55, 15, 5] 2 4 = .ok ⟨60, 1/5, 1/5, 2/5, 1/5⟩ ∧
    (1/5 : ℚ) ≠ 1/10 := by
  with_unfolding_all decide

/-- C1 (amended): the scenario yields exactly one pulse with interval
rows 2 and 4, peak 60 at time 0.2, start time 0.2, end time 0.4 and
duration 0.2. -/
theorem c1_scenario_amended :
    detect_pulses 10 50 20 [5, 5, 60, 55, 15, 5] = [(2, 4)] ∧
    computePulseStatsE [0, 1/10, 2/10, 3/10, 4/10, 5/10]
      [5, 5, 60, 55, 15, 5] 2 4 = .ok ⟨60, 1/5, 1/5, 2/5, 1/5⟩ := by
  refine ⟨by decide, ?_⟩
  with_unfolding_all decide

/-- C2 (counterexample): on the scenario series the input-row
segmenter yields the interval (2, 4) while the output-row segmenter
of copy_raw_data stores (12, 13); no single integer constant relates
both the start and the end. -/
theorem c2_single_offset_counterexample :
    detect_pulses 10 50 20 [5, 5, 60, 55, 15, 5] = [(2, 4)] ∧
    pf_detect_pulses 10 50 20 [5, 5, 60, 55, 15, 5] = [(12, 13)] ∧
    ∀ c : ℤ, ¬((12 : ℤ) = 2 + c ∧ (13 : ℤ) = 4 + c) := by
  refine ⟨by decide, by decide, ?_⟩
  intro c hc
  omega

/-- C2 (amended): the output-row layout of copy_raw_data relates to
the input-row segmenter by start + 10 and in-loop end + 9 (that is,
the last in-pulse row + 10); an interval closed at end of series gets
end = length + 9, which is the last row + 10; recorded formula
locations are first-occurrence row + 10. -/
theorem row_offset_amended (bt pst pet : ℚ) (vals : List ℚ) :
    (pf_pulse_ranges bt pst pet vals).closed =
      (analyze_pulse_ranges bt pst pet vals).closed.map offsetPair ∧
    (pf_pulse_ranges bt pst pet vals).openStart =
      (analyze_pulse_ranges bt pst pet vals).openStart.map (· + 10) ∧
    ((analyze_pulse_ranges bt pst pet vals).openStart = none →
      pf_detect_pulses bt pst pet vals =
        (detect_pulses bt pst pet vals).map offsetPair) ∧
    (∀ s, (analyze_pulse_ranges bt pst pet vals).openStart = some s →
      pf_detect_pulses bt pst pet vals =
        (analyze_pulse_ranges bt pst pet vals).closed.map offsetPair ++
          [(s + 10, vals.length + 9)] ∧
      detect_pulses bt pst pet vals =
        (analyze_pulse_ranges bt pst pet vals).closed ++
          [(s, vals.length - 1)]) ∧
    (∀ labels p, pf_formula_loc labels p = labelIndex labels p + 10) := by
  have hrel := pf_pulse_ranges_rel bt pst pet vals
  refine ⟨by rw [hrel]; rfl, by rw [hrel]; rfl, ?_, ?_, fun _ _ => rfl⟩
  · intro hnone
    simp only [pf_detect_pulses, detect_pulses, hrel, offsetState, hnone,
      Option.map_none']
  · intro s hs
    constructor
    · simp only [pf_detect_pulses, detect_pulses, hrel, offsetState, hs,
        Option.map_some']
    · simp only [detect_pulses, hs]

theorem row_offset_amended_witness :
    pf_detect_pulses 10 50 20 [5, 60] =
      (analyze_pulse_ranges 10 50 20 [5, 60]).closed.map offsetPair ++
        [(1 + 10, ([5, 60] : List ℚ).length + 9)] ∧
    detect_pulses 10 50 20 [5, 60] =
      (analyze_pulse_ranges 10 50 20 [5, 60]).closed ++
        [(1, ([5, 60] : List ℚ).length - 1)] :=
  (row_offset_amended 10 50 20 [5, 60]).2.2.2.1 1 (by decide)

/-- C3 (code_bug evaluation): a pulse whose range holds a single
labelled row gets only the min_v location; building the summary then
reads the absent peak_a key of the per-pulse location dict, because
the guard of the source checks only that the pulse is present, and
the whole run fails with KeyError, so copy_raw_data returns None
instead of emitting blank cells. -/
theorem c3_short_pulse_keyerror :
    (df_run [0, 20, 5, 0, 0]).labels = [none, some 1, none, none, none] ∧
    assignAux (df_run [0, 20, 5, 0, 0]).labels (df_run [0, 20, 5, 0, 0]).ranges
      1 (df_run [0, 20, 5, 0, 0]).vf =
      .ok ([VCell.blank, VCell.minF 11 11, VCell.blank, VCell.blank,
        VCell.blank], [⟨11, none, none⟩]) ∧
    df_pipeline [0, 20, 5, 0, 0] = .error .keyError ∧
    df_copy_raw_data [0, 20, 5, 0, 0] = none := by
  refine ⟨?_, ?_, ?_, ?_⟩ <;> with_unfolding_all decide

/-- C4 (code_bug evaluation): when the series of data_formatter ends
while in a pulse, the range of the open pulse keeps no end key; the
formula assignment then reads the absent end key and the run fails
with KeyError (copy_raw_data returns None), instead of closing the
interval at the final row. -/
theorem c4_trailing_open_keyerror :
    (df_run [0, 20]).ranges = [(11, none)] ∧
    df_pipeline [0, 20] = .error .keyError ∧
    df_copy_raw_data [0, 20] = none := by
  refine ⟨?_, ?_, ?_⟩ <;> with_unfolding_all decide

/-- C5: for every input series and threshold configuration the
detected intervals are ordered with each end strictly before the next
start, and every interval has start at most end. -/
theorem detect_pulses_sorted_disjoint (bt pst pet : ℚ) (vals : List ℚ) :
    List.Pairwise (fun a b : ℕ × ℕ => a.2 < b.1)
      (detect_pulses bt pst pet vals) ∧
    ∀ p ∈ detect_pulses bt pst pet vals, p.1 ≤ p.2 :=
  ⟨chainLt_pairwise (detect_pulses_chain bt pst pet vals),
   fun p hp => (chainLt_mem (detect_pulses_chain bt pst pet vals) p hp).2.1⟩

theorem detect_pulses_sorted_disjoint_witness :
    List.Pairwise (fun a b : ℕ × ℕ => a.2 < b.1)
      (detect_pulses 10 50 20 [5, 5, 60, 55, 15, 5]) ∧
    ∀ p ∈ detect_pulses 10 50 20 [5, 5, 60, 55, 15, 5], p.1 ≤ p.2 :=
  detect_pulses_sorted_disjoint 10 50 20 [5, 5, 60, 55, 15, 5]

/-- C6: for every detected interval the computed peak row lies in the
interval, holds the maximum of the current channel over the interval,
every row of the interval is at most that maximum, every earlier row
of the interval is strictly below it (first-index tie break), and the
statistics record takes its peak time from that row of the Relative
Time column. -/
theorem peak_stats_correct (bt pst pet : ℚ) (times current : List ℚ) :
    ∀ iv ∈ detect_pulses bt pst pet current,
      iv.1 ≤ peakIdx current iv.1 iv.2 ∧
      peakIdx current iv.1 iv.2 ≤ iv.2 ∧
      current.getD (peakIdx current iv.1 iv.2) 0 = peakValue current iv.1 iv.2 ∧
      (∀ j, iv.1 ≤ j → j ≤ iv.2 →
        current.getD j 0 ≤ peakValue current iv.1 iv.2) ∧
      (∀ j, iv.1 ≤ j → j < peakIdx current iv.1 iv.2 →
        current.getD j 0 < peakValue current iv.1 iv.2) ∧
      computePulseStatsE times current iv.1 iv.2 = .ok
        { peak_current := roundTo 2 (peakValue current iv.1 iv.2)
          peak_time := roundTo 3 (times.getD (peakIdx current iv.1 iv.2) 0)
          start_time := roundTo 3 (times.getD iv.1 0)
          end_time := roundTo 3 (times.getD iv.2 0)
          duration := roundTo 3 (times.getD iv.2 0 - times.getD iv.1 0) } := by
  intro iv hiv
  obtain ⟨h1, h2⟩ := detect_pulses_mem_bounds bt pst pet current iv hiv
  obtain ⟨p1, p2, p3, p4, p5⟩ := peak_core h1 h2
  refine ⟨p1, p2, p3, p4, p5, ?_⟩
  unfold computePulseStatsE
  rw [if_neg (pdSlice_ne_nil h1 h2)]

theorem peak_stats_correct_witness :
    (2, 4).1 ≤ peakIdx [5, 5, 60, 55, 15, 5] (2, 4).1 (2, 4).2 ∧
    peakIdx [5, 5, 60, 55, 15, 5] (2, 4).1 (2, 4).2 ≤ (2, 4).2 ∧
    List.getD [5, 5, 60, 55, 15, 5] (peakIdx [5, 5, 60, 55, 15, 5]
      (2, 4).1 (2, 4).2) 0 = peakValue [5, 5, 60, 55, 15, 5] (2, 4).1 (2, 4).2 ∧
    (∀ j, (2, 4).1 ≤ j → j ≤ (2, 4).2 →
      List.getD [5, 5, 60, 55, 15, 5] j 0 ≤
        peakValue [5, 5, 60, 55, 15, 5] (2, 4).1 (2, 4).2) ∧
    (∀ j, (2, 4).1 ≤ j → j < peakIdx [5, 5, 60, 55, 15, 5] (2, 4).1 (2, 4).2 →
      List.getD [5, 5, 60, 55, 15, 5] j 0 <
        peakValue [5, 5, 60, 55, 15, 5] (2, 4).1 (2, 4).2) ∧
    computePulseStatsE [0, 1/10, 2/10, 3/10, 4/10, 5/10] [5, 5, 60, 55, 15, 5]
      (2, 4).1 (2, 4).2 = .ok
      { peak_current := roundTo 2 (peakValue [5, 5, 60, 55, 15, 5]
          (2, 4).1 (2, 4).2)
        peak_time := roundTo 3 (List.getD [0, 1/10, 2/10, 3/10, 4/10, 5/10]
          (peakIdx [5, 5, 60, 55, 15, 5] (2, 4).1 (2, 4).2) 0)
        start_time := roundTo 3 (List.getD [0, 1/10, 2/10, 3/10, 4/10, 5/10]
          (2, 4).1 0)
        end_time := roundTo 3 (List.getD [0, 1/10, 2/10, 3/10, 4/10, 5/10]
          (2, 4).2 0)
        duration := roundTo 3 (List.getD [0, 1/10, 2/10, 3/10, 4/10, 5/10]
          (2, 4).2 0 - List.getD [0, 1/10, 2/10, 3/10, 4/10, 5/10]
          (2, 4).1 0) } :=
  peak_stats_correct 10 50 20 [0, 1/10, 2/10, 3/10, 4/10, 5/10]
    [5, 5, 60, 55, 15, 5] (2, 4) (by decide)

/-- C7 (counterexample): on a series containing four jump pulses the
capped detection of data_formatter stops after the third pulse
closes, so pulse 4 is absent from the per-row labels even though the
uncapped detection labels its rows; pulses beyond the cap are not
present in the raw-data labels. -/
theorem c7_labels_counterexample :
    df_labels [0, 20, 5, 20, 5, 20, 5, 20, 20] =
      [none, some 1, none, some 2, none, some 3, none, none, none] ∧
    some 4 ∉ df_labels [0, 20, 5, 20, 5, 20, 5, 20, 20] ∧
    some 4 ∈ df_labels_uncapped [0, 20, 5, 20, 5, 20, 5, 20, 20] := by
  with_unfolding_all decide

/-- C7 (amended): with the cap at three pulses, the summary block
always has exactly three pulse rows, and no per-row label ever names
a pulse beyond 3 - detection halts entirely, rather than keeping the
later pulses in the labels. -/
theorem df_truncation_amended (vals : List ℚ) :
    (∀ p, some p ∈ df_labels vals → p ≤ 3) ∧
    (∀ locs s, df_build_summary locs = .ok s → s.length = 3) :=
  ⟨df_labels_le vals, df_build_summary_length⟩

theorem df_truncation_amended_witness :
    (1 : ℕ) ≤ 3 ∧
    ([(1, GCell.blank, GCell.blank, GCell.blank),
      (2, GCell.blank, GCell.blank, GCell.blank),
      (3, GCell.blank, GCell.blank, GCell.blank)] :
      List (ℕ × GCell × GCell × GCell)).length = 3 :=
  ⟨(df_truncation_amended [0, 20, 5, 20, 5, 20, 5, 20, 20]).1 1
      (by with_unfolding_all decide),
   (df_truncation_amended []).2 [] _ (by with_unfolding_all decide)⟩

/-- C8 (counterexample): on an interval with start row 1 and end row
0 the statistics computation fails with the ValueError of the argmax
of the empty slice; the source contains no defensive validation and
no EmptyIntervalError. -/
theorem c8_valueerror_counterexample :
    computePulseStatsE [0, 1/10] [5, 60] 1 0 = .error .valueError ∧
    PyErr.valueError ≠ PyErr.emptyIntervalError := by
  with_unfolding_all decide

/-- C8 (amended): for every interval with start row above end row the
statistics computation fails, because the row slice is empty and the
argmax of an empty slice raises ValueError; there is no separate
defensive check. -/
theorem empty_interval_fails (times current : List ℚ) (s e : ℕ)
    (h : e < s) :
    computePulseStatsE times current s e = .error .valueError := by
  have ht : (current.take (e + 1)).length = min (e + 1) current.length := by
    simp
  have hnil : pdSlice current s e = [] := by
    apply List.drop_eq_nil_of_le
    omega
  unfold computePulseStatsE
  rw [if_pos hnil]

theorem empty_interval_fails_witness :
    computePulseStatsE [0] [0] 1 0 = .error .valueError :=
  empty_interval_fails [0] [0] 1 0 (by omega)

/-- C9: every chart series of the builder is bound to the one row
window of the raw-data block: categories and values both span rows 9
through 9 + n - 1 for an n-row block, identically across the voltage
and current series. -/
theorem chart_series_single_window (n : ℕ) :
    ∀ s ∈ df_chart_series n,
      s.catFirst = 9 ∧ s.valFirst = 9 ∧
      s.catLast = 9 + n - 1 ∧ s.valLast = 9 + n - 1 := by
  intro s hs
  simp only [df_chart_series, List.mem_cons, List.not_mem_nil, or_false] at hs
  rcases hs with rfl | rfl
  · exact ⟨rfl, rfl, rfl, rfl⟩
  · exact ⟨rfl, rfl, rfl, rfl⟩

theorem chart_series_single_window_witness :
    ({ name := "Clamp [V]", catFirst := 9, catLast := 9 + 6 - 1, catCol := 0
       valFirst := 9, valLast := 9 + 6 - 1, valCol := 3, y2 := false } :
      ChartSeries).catFirst = 9 ∧
    ({ name := "Clamp [V]", catFirst := 9, catLast := 9 + 6 - 1, catCol := 0
       valFirst := 9, valLast := 9 + 6 - 1, valCol := 3, y2 := false } :
      ChartSeries).valFirst = 9 ∧
    ({ name := "Clamp [V]", catFirst := 9, catLast := 9 + 6 - 1, catCol := 0
       valFirst := 9, valLast := 9 + 6 - 1, valCol := 3, y2 := false } :
      ChartSeries).catLast = 9 + 6 - 1 ∧
    ({ name := "Clamp [V]", catFirst := 9, catLast := 9 + 6 - 1, catCol := 0
       valFirst := 9, valLast := 9 + 6 - 1, valCol := 3, y2 := false } :
      ChartSeries).valLast = 9 + 6 - 1 :=
  chart_series_single_window 6 _ (List.mem_cons_self _ _)

/-- C10: the two public entry points never let an internal failure
escape: the wrapped results are always ok values, a failing body of
analyze_peak_currents becomes the success False dictionary carrying
the error message, a failing body of copy_raw_data becomes None, and
an input frame without the Amp column makes both bodies fail with
KeyError. -/
theorem entry_points_no_exception (input : Except PyErr Frame) :
    (∃ r, analyze_peak_currents input = .ok r) ∧
    (∃ r, pf_copy_raw_data input = .ok r) ∧
    (∀ e, analyzeRun input = .error e →
      analyze_peak_currents input = .ok (.failure (errMsg e))) ∧
    (∀ e, pfRun input = .error e → pf_copy_raw_data input = .ok none) ∧
    (∀ f, input = .ok f → f.amp = none →
      analyzeRun input = .error .keyError ∧
      pfRun input = .error .keyError) := by
  refine ⟨⟨_, rfl⟩, ⟨_, rfl⟩, ?_, ?_, ?_⟩
  · intro e h
    unfold analyze_peak_currents
    rw [h]
  · intro e h
    unfold pf_copy_raw_data
    rw [h]
  · intro f hf hamp
    subst hf
    constructor
    · show (Except.ok f).bind analyzeBody = .error .keyError
      simp [Except.bind, analyzeBody, hamp]
    · show (Except.ok f).bind pfBody = .error .keyError
      simp [Except.bind, pfBody, hamp]

theorem entry_points_no_exception_witness :
    analyzeRun (.ok ⟨[], none, none⟩) = .error .keyError ∧
    pfRun (.ok ⟨[], none, none⟩) = .error .keyError :=
  (entry_points_no_exception (.ok ⟨[], none, none⟩)).2.2.2.2
    ⟨[], none, none⟩ rfl rfl
